import Mathlib

/-!
# Verification of the form-crawler core

A shallow embedding of `src/crawler.js`: the domain feed aggregator, the
scan-state store, the result (shard) store, the bounded frontier crawler and
the run controller, together with theorems about the claims of the spec.

Conventions of the embedding:
* JavaScript strings are Lean `String`s; file contents that the code parses as
  JSON arrays of records are modelled as already-parsed `List FormRecord`.
* Fallible effects (fetch, readFile, stat, readdir, writeFile, the renderer)
  are modelled as `Except`/`Option` parameters; a `try { .. } catch { .. }`
  becomes a `match` on the `Except`.
* `JSON.stringify`/`writeFile` pairs are modelled by returning the pair
  (path, full written contents): a whole-file overwrite.
-/

namespace Crawler

/-- `MAX_FILE_SIZE` from the source: the 20 MiB shard ceiling. -/
def MAX_FILE_SIZE : Nat := 20 * 1024 * 1024

/-- `FieldRecord` of one form input (shape of `extractFormData` fields). -/
structure FieldRecord where
  type : String
  name : String
  id : String
  placeholder : String
  required : Bool
  options : Option (List String)
deriving DecidableEq, Repr

/-- `FormRecord`: one extracted form (shape produced by `extractFormData`). -/
structure FormRecord where
  url : String
  action : String
  method : String
  fields : List FieldRecord
deriving DecidableEq, Repr

/-! ## Result store (`getNextResultFile`, `saveResults`)

The JS code extracts a shard index with the unanchored regex search
`f.match(/forms(_(\d+))?\.json/)`.  `shardSearch` models that search on the
character list of the filename: it tries each start position from the left;
at a position the pattern matches if the literal `forms` is there, followed
either by `_`, a maximal non-empty digit run and `.json` (capturing group 2
present), or directly by `.json` (group absent).  Backtracking of the greedy
`\d+` cannot help because a shorter digit run is still followed by a digit,
never by `.`, so only the maximal run is considered. -/

/-- Maximal leading digit run of a character list, and the remainder. -/
def takeDigits : List Char → List Char × List Char
  | [] => ([], [])
  | c :: cs =>
    if c.isDigit then
      let p := takeDigits cs
      (c :: p.1, p.2)
    else ([], c :: cs)

/-- Try to match `forms(_(\d+))?\.json` at the head of `cs`.
`some (some ds)` : match with group 2 = digit run `ds`;
`some none` : match with group 2 absent; `none` : no match here. -/
def matchShardAt (cs : List Char) : Option (Option (List Char)) :=
  if "forms".toList <+: cs then
    let rest := cs.drop 5
    match rest with
    | '_' :: r2 =>
      let p := takeDigits r2
      if p.1 ≠ [] ∧ ".json".toList <+: p.2 then some (some p.1)
      else if ".json".toList <+: rest then some none
      else none
    | _ =>
      if ".json".toList <+: rest then some none
      else none
  else none

/-- Leftmost regex search for `forms(_(\d+))?\.json`. -/
def shardSearch : List Char → Option (Option (List Char))
  | [] => none
  | c :: cs =>
    match matchShardAt (c :: cs) with
    | some r => some r
    | none => shardSearch cs

/-- `parseInt` on a non-empty decimal digit run. -/
def digitsToNat (ds : List Char) : Nat :=
  ds.foldl (fun n c => n * 10 + (c.toNat - 48)) 0

/-- Captured group 2 of the shard regex as a number:
`numA && numA[2] ? parseInt(numA[2]) : none`. -/
def shardCapture (s : String) : Option Nat :=
  match shardSearch s.data with
  | some (some ds) => some (digitsToNat ds)
  | _ => none

/-- The sort key of the JS comparator: `numA && numA[2] ? parseInt(numA[2]) : 0`. -/
def shardIndex (s : String) : Nat :=
  (shardCapture s).getD 0

/-- The filter `f.startsWith('forms') && f.endsWith('.json')` of the source
(expressed on the character lists so that it evaluates by kernel reduction). -/
def isFormFile (f : String) : Bool :=
  "forms".data.isPrefixOf f.data && ".json".data.isSuffixOf f.data

/-- The filename the source builds for a fresh shard: `forms_${n}.json`. -/
def shardName (n : Nat) : String :=
  "forms_" ++ toString n ++ ".json"

/-- The filesystem state `getNextResultFile` observes: the result-directory
listing (`none` = `readdir` rejects), per-file `stat` size (`none` = `stat`
rejects) and per-file parsed JSON contents. -/
structure FS where
  listing : Option (List String)
  size : String → Option Nat
  content : String → List FormRecord

/-- Comparator order of `formFiles.sort((a,b) => indexB - indexA)`:
descending by parsed shard index. -/
def shardGE (a b : String) : Prop :=
  shardIndex b ≤ shardIndex a

instance : DecidableRel shardGE := fun _ _ => Nat.decLe _ _

instance : IsTotal String shardGE :=
  ⟨fun _ _ => Nat.le_total _ _⟩

instance : IsTrans String shardGE :=
  ⟨fun _ _ _ h1 h2 => Nat.le_trans h2 h1⟩

/-- The candidate list of `getNextResultFile`: directory entries passing the
`forms*/.json` filter (`readdir` failure is caught and yields `[]`). -/
def formFilesOf (fs : FS) : List String :=
  (fs.listing.getD []).filter isFormFile

/-- `formFiles[0]` after the descending stable sort: the selected shard. -/
def pickedShard (fs : FS) : String :=
  (List.insertionSort shardGE (formFilesOf fs)).headD ""

/-- `getNextResultFile`: returns the append target path and its existing
(parsed) records, per the source's selection and rotation logic. -/
def getNextResultFile (fs : FS) : String × List FormRecord :=
  let formFiles := formFilesOf fs
  if formFiles.isEmpty then ("forms.json", [])
  else
    let lastFile := pickedShard fs
    match fs.size lastFile with
    | some sz =>
      if sz < MAX_FILE_SIZE then (lastFile, fs.content lastFile)
      else (shardName ((shardCapture lastFile).map (· + 1) |>.getD 1), [])
    | none => (shardName ((shardCapture lastFile).map (· + 1) |>.getD 1), [])

/-- `saveResults(forms)`: select the target, concatenate existing records with
the new ones and overwrite the file; the returned pair is (path, full
written contents). -/
def saveResults (fs : FS) (forms : List FormRecord) : String × List FormRecord :=
  let target := getNextResultFile fs
  (target.1, target.2 ++ forms)

/-- Modelled from the spec (§4.3 shard naming): the shard naming pattern
`forms.json` / `forms_<N>.json`, used only to compare the source's candidate
filter against the spec's words. -/
def shardPatternSpec (s : String) : Bool :=
  s == "forms.json" ||
    ("forms_".data.isPrefixOf s.data && ".json".data.isSuffixOf s.data &&
      (let mid := ((s.data.drop 6).reverse.drop 5).reverse
       decide (mid ≠ []) && mid.all (fun c => c.isDigit)))

/-! ### Lemmas about shard selection -/

/-- The freshly-allocated index expression of the source,
`lastIndex && lastIndex[2] ? parseInt(lastIndex[2]) + 1 : 1`, always equals
the sort key of the picked file plus one. -/
lemma nextIndex_eq (s : String) :
    ((shardCapture s).map (· + 1)).getD 1 = shardIndex s + 1 := by
  unfold shardIndex
  cases shardCapture s <;> simp

/-- The head of the descending stable sort is a candidate of maximal index. -/
lemma pickedShard_max (fs : FS) (h : formFilesOf fs ≠ []) :
    pickedShard fs ∈ formFilesOf fs ∧
      ∀ c ∈ formFilesOf fs, shardIndex c ≤ shardIndex (pickedShard fs) := by
  have hperm := List.perm_insertionSort shardGE (formFilesOf fs)
  have hsorted := List.sorted_insertionSort shardGE (formFilesOf fs)
  cases hL : List.insertionSort shardGE (formFilesOf fs) with
  | nil =>
    rw [hL] at hperm
    exact absurd hperm.symm.eq_nil h
  | cons x xs =>
    have hx : pickedShard fs = x := by simp [pickedShard, hL]
    rw [hL] at hperm hsorted
    rw [List.sorted_cons] at hsorted
    constructor
    · exact hx ▸ hperm.mem_iff.mp (List.mem_cons_self x xs)
    · intro c hc
      rcases List.mem_cons.mp (hperm.mem_iff.mpr hc) with h1 | h2
      · rw [hx, h1]
      · exact hx ▸ hsorted.1 c h2

/-! ### Claim C2: writable-shard selection -/

/-- C2, counterexample to the claim as stated: the candidate filter of the
source is `startsWith "forms" && endsWith ".json"`, not the shard naming
pattern.  In a results directory holding only `formsx.json` — which does not
match the pattern `forms.json` / `forms_<N>.json` — the source still selects
it as the append target, instead of considering no candidates and targeting
`forms.json`. -/
theorem claim2_counterexample :
    getNextResultFile ⟨some ["formsx.json"], fun _ => some 0, fun _ => []⟩ =
      ("formsx.json", []) ∧
    shardPatternSpec "formsx.json" = false := by
  constructor
  · decide
  · decide

/-- C2 (amended): `getNextResultFile` considers exactly the listed files that
start with `forms` and end with `.json` (readdir failure = no candidates;
names not of the shape `forms_<N>.json` get suffix 0); with no candidates it
targets `forms.json` with empty content; otherwise it picks a candidate of
maximal numeric suffix (unindexed = suffix 0), appends to it with its
existing records loaded when its persisted size is strictly below 20 MiB,
and otherwise allocates the shard named with suffix `currentMaxIndex + 1`,
which is at least 1 — so the fresh-allocation branch never produces the
suffix `_0`. -/
theorem claim2_shard_selection (fs : FS) :
    formFilesOf fs = (fs.listing.getD []).filter isFormFile ∧
    (formFilesOf fs = [] → getNextResultFile fs = ("forms.json", [])) ∧
    (formFilesOf fs ≠ [] →
      pickedShard fs ∈ formFilesOf fs ∧
      (∀ c ∈ formFilesOf fs, shardIndex c ≤ shardIndex (pickedShard fs)) ∧
      (∀ sz, fs.size (pickedShard fs) = some sz →
        (sz < MAX_FILE_SIZE →
          getNextResultFile fs = (pickedShard fs, fs.content (pickedShard fs))) ∧
        (MAX_FILE_SIZE ≤ sz →
          getNextResultFile fs = (shardName (shardIndex (pickedShard fs) + 1), []) ∧
          1 ≤ shardIndex (pickedShard fs) + 1))) := by
  refine ⟨rfl, ?_, ?_⟩
  · intro h
    simp [getNextResultFile, h]
  · intro h
    obtain ⟨hmem, hmax⟩ := pickedShard_max fs h
    refine ⟨hmem, hmax, ?_⟩
    intro sz hsz
    have hne : (formFilesOf fs).isEmpty = false := by
      simpa [List.isEmpty_iff] using h
    constructor
    · intro hlt
      simp [getNextResultFile, hne, hsz, hlt]
    · intro hge
      have hnlt : ¬ sz < MAX_FILE_SIZE := Nat.not_lt.mpr hge
      simp [getNextResultFile, hne, hsz, hnlt, nextIndex_eq, shardIndex]

/-- C2, witness: the amended selection theorem applied to a concrete
directory holding `forms.json` and `forms_2.json`, the latter below the
ceiling. -/
theorem claim2_shard_selection_witness :
    pickedShard ⟨some ["forms.json", "forms_2.json"], fun _ => some 7, fun _ => []⟩ ∈
      formFilesOf ⟨some ["forms.json", "forms_2.json"], fun _ => some 7, fun _ => []⟩ ∧
    getNextResultFile ⟨some ["forms.json", "forms_2.json"], fun _ => some 7, fun _ => []⟩ =
      (pickedShard ⟨some ["forms.json", "forms_2.json"], fun _ => some 7, fun _ => []⟩,
        []) := by
  have h := (claim2_shard_selection
    ⟨some ["forms.json", "forms_2.json"], fun _ => some 7, fun _ => []⟩).2.2 (by decide)
  exact ⟨h.1, ((h.2.2 7 rfl).1 (by decide)).trans rfl⟩

/-! ### Claim C3: append semantics -/

/-- C3: when the selected append target exists and its persisted size is
below the 20 MiB ceiling, `saveResults` overwrites that shard with the
existing records followed by the new records, so the record count grows by
exactly the number of new records. -/
theorem claim3_append_semantics (fs : FS) (forms : List FormRecord) (sz : Nat)
    (hne : formFilesOf fs ≠ [])
    (hsz : fs.size (pickedShard fs) = some sz)
    (hlt : sz < MAX_FILE_SIZE) :
    saveResults fs forms = (pickedShard fs, fs.content (pickedShard fs) ++ forms) ∧
    (fs.content (pickedShard fs) ++ forms).length =
      (fs.content (pickedShard fs)).length + forms.length := by
  have hne' : (formFilesOf fs).isEmpty = false := by
    simpa [List.isEmpty_iff] using hne
  constructor
  · simp [saveResults, getNextResultFile, hne', hsz, hlt]
  · simp

/-- C3, witness: appending one record to a directory whose only shard is a
small `forms.json`. -/
theorem claim3_append_semantics_witness :
    saveResults ⟨some ["forms.json"], fun _ => some 3, fun _ => []⟩
        [⟨"u", "a", "get", []⟩] =
      (pickedShard ⟨some ["forms.json"], fun _ => some 3, fun _ => []⟩,
        (fun _ => ([] : List FormRecord)) (pickedShard ⟨some ["forms.json"], fun _ => some 3, fun _ => []⟩)
          ++ [⟨"u", "a", "get", []⟩]) := by
  exact (claim3_append_semantics ⟨some ["forms.json"], fun _ => some 3, fun _ => []⟩
    [⟨"u", "a", "get", []⟩] 3 (by decide) rfl (by decide)).1

/-! ### Claim C10: degradation on listing/stat failure -/

/-- C10: if listing the results directory fails, `getNextResultFile` behaves
as if no shards exist and targets `forms.json` with empty existing content —
so a subsequent `saveResults` writes exactly the new records over whatever
the file previously held; and if the size stat of the picked shard fails, a
new shard with the next index is allocated. -/
theorem claim10_shard_degradation (fs : FS) (forms : List FormRecord) :
    (fs.listing = none →
      getNextResultFile fs = ("forms.json", []) ∧
      saveResults fs forms = ("forms.json", forms)) ∧
    (formFilesOf fs ≠ [] → fs.size (pickedShard fs) = none →
      getNextResultFile fs = (shardName (shardIndex (pickedShard fs) + 1), [])) := by
  constructor
  · intro h
    have : formFilesOf fs = [] := by simp [formFilesOf, h]
    constructor
    · simp [getNextResultFile, this]
    · simp [saveResults, getNextResultFile, this]
  · intro h hsz
    have hne' : (formFilesOf fs).isEmpty = false := by
      simpa [List.isEmpty_iff] using h
    simp [getNextResultFile, hne', hsz, nextIndex_eq, shardIndex]

/-- C10, witness: a failing `readdir` over a directory whose `forms.json`
actually holds one record — the append target still comes back empty, so the
write drops the stored record. -/
theorem claim10_shard_degradation_witness :
    getNextResultFile ⟨none, fun _ => some 0, fun _ => [⟨"u", "a", "get", []⟩]⟩ =
      ("forms.json", []) ∧
    saveResults ⟨none, fun _ => some 0, fun _ => [⟨"u", "a", "get", []⟩]⟩
        [⟨"v", "b", "post", []⟩] =
      ("forms.json", [⟨"v", "b", "post", []⟩]) := by
  exact (claim10_shard_degradation
    ⟨none, fun _ => some 0, fun _ => [⟨"u", "a", "get", []⟩]⟩
    [⟨"v", "b", "post", []⟩]).1 rfl

/-! ## Scan state store (`loadScannedDomains`)

`loadScannedDomains` does `JSON.parse(await fs.readFile(path))` inside a
`try`, returning `{scanned: [], lastUpdate: null}` from the `catch`.  The
read outcome and the JSON parser are parameters: `readFile = .error ()`
models a missing or unreadable file, `parse s = .error ()` models content
that is not valid JSON.  The Lean function is total: no exception escapes. -/

/-- A JSON value, as `JSON.parse` would produce it. -/
inductive JsonV where
  | null
  | bool (b : Bool)
  | num (n : Int)
  | str (s : String)
  | arr (xs : List JsonV)
  | obj (fields : List (String × JsonV))

/-- The catch-branch value of `loadScannedDomains`:
`{ scanned: [], lastUpdate: null }`. -/
def defaultScanState : JsonV :=
  .obj [("scanned", .arr []), ("lastUpdate", .null)]

/-- `loadScannedDomains`: read the stats file and parse it; any failure of
either step is caught and yields the default state. -/
def loadScannedDomains (readFile : Except Unit String)
    (parse : String → Except Unit JsonV) : JsonV :=
  match readFile with
  | .ok d =>
    match parse d with
    | .ok v => v
    | .error _ => defaultScanState
  | .error _ => defaultScanState

/-! ### Claim C4: scan-state load default -/

/-- C4: whenever the state file is missing/unreadable (the read errors) or
holds content the JSON parser rejects, `loadScannedDomains` returns exactly
`{scanned: [], lastUpdate: null}`; being a total function of the embedded
effects, it raises nothing. -/
theorem claim4_load_default (readFile : Except Unit String)
    (parse : String → Except Unit JsonV)
    (h : readFile = .error () ∨ ∃ s, readFile = .ok s ∧ parse s = .error ()) :
    loadScannedDomains readFile parse = defaultScanState := by
  rcases h with h | ⟨s, hs, hp⟩
  · simp [loadScannedDomains, h]
  · simp [loadScannedDomains, hs, hp]

/-- C4, witness: an unreadable file with a parser that accepts everything. -/
theorem claim4_load_default_witness :
    loadScannedDomains (.error ()) (fun _ => .ok .null) = defaultScanState :=
  claim4_load_default (.error ()) (fun _ => .ok .null) (Or.inl rfl)

/-! ## Domain feed aggregator (`fetchDomains`)

The JS string operations are modelled on character lists (JS `split('\n')`,
`trim()`, `startsWith('#')`, `replace(/^\*\./, '')`), so that they evaluate
by kernel reduction.  A failing `fetch` of either list is caught and
contributes nothing. -/

/-- Whitespace for JS `trim` (the characters that matter for feed lines). -/
def isWS (c : Char) : Bool :=
  c == ' ' || c == '\t' || c == '\n' || c == '\r'

/-- JS `text.split('\n')` on the character list. -/
def splitLinesAux : List Char → List (List Char)
  | [] => [[]]
  | c :: cs =>
    if c = '\n' then [] :: splitLinesAux cs
    else
      match splitLinesAux cs with
      | l :: ls => (c :: l) :: ls
      | [] => [[c]]

/-- JS `text.split('\n')`. -/
def jsSplitLines (s : String) : List String :=
  (splitLinesAux s.data).map String.mk

/-- JS `line.trim()`. -/
def jsTrim (s : String) : String :=
  ⟨((s.data.dropWhile isWS).reverse.dropWhile isWS).reverse⟩

/-- JS `s.startsWith('#')`. -/
def startsHash (s : String) : Bool :=
  match s.data with
  | '#' :: _ => true
  | _ => false

/-- JS `trimmed.replace(/^\*\./, '')`: strip one leading `*.`. -/
def stripWildcard (s : String) : String :=
  if ['*', '.'].isPrefixOf s.data then ⟨s.data.drop 2⟩ else s

/-- `domains.add(x)` on a JS `Set`, as an insertion-ordered dedup list. -/
def addDomain (acc : List String) (d : String) : List String :=
  if d ∈ acc then acc else acc ++ [d]

/-- One line of the exact-domain list:
`if (trimmed && !trimmed.startsWith('#')) domains.add(trimmed)`. -/
def domStep (acc : List String) (line : String) : List String :=
  if jsTrim line ≠ "" ∧ startsHash (jsTrim line) = false then
    addDomain acc (jsTrim line)
  else acc

/-- One line of the wildcard list: additionally strip one leading `*.` and
add the remainder only if non-empty. -/
def wildStep (acc : List String) (line : String) : List String :=
  if jsTrim line ≠ "" ∧ startsHash (jsTrim line) = false then
    (if stripWildcard (jsTrim line) ≠ "" then
      addDomain acc (stripWildcard (jsTrim line))
    else acc)
  else acc

/-- `fetchDomains`: process both feeds; a failed fetch is caught and its
source contributes nothing. -/
def fetchDomains (dRes wRes : Except Unit String) : List String :=
  let acc : List String :=
    match dRes with
    | .ok t => (jsSplitLines t).foldl domStep []
    | .error _ => []
  match wRes with
  | .ok t => (jsSplitLines t).foldl wildStep acc
  | .error _ => acc

/-! ### Lemmas about feed ingestion -/

lemma mem_addDomain {acc : List String} {d e : String}
    (h : e ∈ addDomain acc d) : e ∈ acc ∨ e = d := by
  unfold addDomain at h
  split at h
  · exact Or.inl h
  · rcases List.mem_append.mp h with h1 | h2
    · exact Or.inl h1
    · exact Or.inr (List.mem_singleton.mp h2)

lemma mem_foldl_domStep {e : String} :
    ∀ (L : List String) (acc : List String), e ∈ L.foldl domStep acc →
      e ∈ acc ∨ (e ≠ "" ∧ startsHash e = false ∧ ∃ line ∈ L, e = jsTrim line)
  | [], _, h => Or.inl h
  | l :: L, acc, h => by
    rcases mem_foldl_domStep L (domStep acc l) h with h1 | ⟨hne, hh, line, hmem, heq⟩
    · unfold domStep at h1
      split at h1
      · rcases mem_addDomain h1 with h2 | h2
        · exact Or.inl h2
        · rename_i hc
          exact Or.inr ⟨h2 ▸ hc.1, h2 ▸ hc.2, l, List.mem_cons_self l L, h2⟩
      · exact Or.inl h1
    · exact Or.inr ⟨hne, hh, line, List.mem_cons_of_mem l hmem, heq⟩

lemma mem_foldl_wildStep {e : String} :
    ∀ (L : List String) (acc : List String), e ∈ L.foldl wildStep acc →
      e ∈ acc ∨ (e ≠ "" ∧ ∃ line ∈ L, jsTrim line ≠ "" ∧
        startsHash (jsTrim line) = false ∧ e = stripWildcard (jsTrim line))
  | [], _, h => Or.inl h
  | l :: L, acc, h => by
    rcases mem_foldl_wildStep L (wildStep acc l) h with h1 | ⟨hne, line, hmem, hr⟩
    · unfold wildStep at h1
      split at h1
      · rename_i hc
        split at h1
        · rcases mem_addDomain h1 with h2 | h2
          · exact Or.inl h2
          · rename_i hcl
            exact Or.inr ⟨h2 ▸ hcl, l, List.mem_cons_self l L, hc.1, hc.2, h2⟩
        · exact Or.inl h1
      · exact Or.inl h1
    · exact Or.inr ⟨hne, line, List.mem_cons_of_mem l hmem, hr⟩

/-! ### Claim C8: feed output purity -/

/-- C8, counterexample to the claim as stated: the exact-domain list is
ingested verbatim (no wildcard stripping, no scheme or `www.` removal), so a
feed whose exact list holds the line `*.foo.com` puts an entry carrying the
wildcard prefix `*.` into the collected set. -/
theorem claim8_counterexample :
    fetchDomains (.ok "*.foo.com") (.error ()) = ["*.foo.com"] ∧
    ['*', '.'].isPrefixOf "*.foo.com".data = true := by
  constructor
  · decide
  · decide

/-- C8 (amended): every collected entry is non-empty, and is either the
trimmed form of a non-empty, non-comment line of the exact feed (taken
verbatim), or a non-empty, non-comment wildcard-feed line's trimmed form
with a single leading `*.` stripped and a non-empty remainder.  Blank and
comment lines are excluded at ingestion; no other normalization (scheme,
`www.`, residual wildcard markers) is performed. -/
theorem claim8_feed_purity (dRes wRes : Except Unit String) (e : String)
    (he : e ∈ fetchDomains dRes wRes) :
    e ≠ "" ∧
    ((∃ t, dRes = .ok t ∧ startsHash e = false ∧
        ∃ line ∈ jsSplitLines t, e = jsTrim line) ∨
     (∃ t, wRes = .ok t ∧ ∃ line ∈ jsSplitLines t, jsTrim line ≠ "" ∧
        startsHash (jsTrim line) = false ∧ e = stripWildcard (jsTrim line))) := by
  unfold fetchDomains at he
  cases hd : dRes with
  | error u =>
    cases hw : wRes with
    | error v => rw [hd, hw] at he; exact absurd he (List.not_mem_nil e)
    | ok wt =>
      rw [hd, hw] at he
      rcases mem_foldl_wildStep _ _ he with h1 | ⟨hne, line, hmem, hr⟩
      · exact absurd h1 (List.not_mem_nil e)
      · exact ⟨hne, Or.inr ⟨wt, rfl, line, hmem, hr⟩⟩
  | ok dt =>
    cases hw : wRes with
    | error v =>
      rw [hd, hw] at he
      rcases mem_foldl_domStep _ _ he with h1 | ⟨hne, hh, line, hmem, heq⟩
      · exact absurd h1 (List.not_mem_nil e)
      · exact ⟨hne, Or.inl ⟨dt, rfl, hh, line, hmem, heq⟩⟩
    | ok wt =>
      rw [hd, hw] at he
      rcases mem_foldl_wildStep _ _ he with h1 | ⟨hne, line, hmem, hr⟩
      · rcases mem_foldl_domStep _ _ h1 with h2 | ⟨hne, hh, line, hmem, heq⟩
        · exact absurd h2 (List.not_mem_nil e)
        · exact ⟨hne, Or.inl ⟨dt, rfl, hh, line, hmem, heq⟩⟩
      · exact ⟨hne, Or.inr ⟨wt, rfl, line, hmem, hr⟩⟩

/-- C8, witness: the purity theorem applied to a one-line exact feed. -/
theorem claim8_feed_purity_witness :
    ("a.com" : String) ≠ "" ∧
    ((∃ t, (Except.ok "a.com" : Except Unit String) = .ok t ∧
        startsHash "a.com" = false ∧
        ∃ line ∈ jsSplitLines t, ("a.com" : String) = jsTrim line) ∨
     (∃ t, (Except.error () : Except Unit String) = .ok t ∧
        ∃ line ∈ jsSplitLines t, jsTrim line ≠ "" ∧
        startsHash (jsTrim line) = false ∧
        ("a.com" : String) = stripWildcard (jsTrim line))) :=
  claim8_feed_purity (.ok "a.com") (.error ()) "a.com" (by decide)

/-! ## Run controller (`main`)

The per-domain loop of `main` is embedded as `attemptLoop`, with two effect
oracles: `outcome d` is what `await crawlDomain(d)` does (forms or a thrown
error), and `saveR forms` is what `await saveResults(forms)` does.  The
`try/catch` of the loop body catches both a crawl failure and a
`saveResults` failure; in every branch the domain is pushed onto `scanned`
and the state is saved.  `saveScannedDomains` itself is modelled as
infallible.  The output records the final scanned list, every state write,
every successful result write, the attempted domains in order, and the
`formsFound` flag. -/

/-- `MAX_DOMAIN_ATTEMPTS` from the source. -/
def MAX_DOMAIN_ATTEMPTS : Nat := 10

deriving instance DecidableEq for Except

/-- Observable outcome of the `while (!formsFound && domainIndex < maxAttempts)`
loop of `main`. -/
structure LoopOut where
  scanned : List String
  stateWrites : List (List String)
  resultWrites : List (List FormRecord)
  attempted : List String
  found : Bool
deriving DecidableEq, Repr

/-- The domain loop of `main` over the budgeted unscanned list.  Per
iteration: crawl; on forms found, `saveResults` then set `formsFound` (loop
exits); on zero forms, crawl exception, or `saveResults` exception (caught
by the same per-domain `catch`), push the domain to `scanned`, save state,
continue. -/
def attemptLoop (outcome : String → Except Unit (List FormRecord))
    (saveR : List FormRecord → Except Unit Unit) :
    List String → List String → LoopOut
  | [], scanned => ⟨scanned, [], [], [], false⟩
  | d :: rest, scanned =>
    match outcome d with
    | .ok fs =>
      if fs.isEmpty then
        let o := attemptLoop outcome saveR rest (scanned ++ [d])
        ⟨o.scanned, (scanned ++ [d]) :: o.stateWrites, o.resultWrites,
          d :: o.attempted, o.found⟩
      else
        match saveR fs with
        | .ok _ => ⟨scanned ++ [d], [scanned ++ [d]], [fs], [d], true⟩
        | .error _ =>
          let o := attemptLoop outcome saveR rest (scanned ++ [d])
          ⟨o.scanned, (scanned ++ [d]) :: o.stateWrites, o.resultWrites,
            d :: o.attempted, o.found⟩
    | .error _ =>
      let o := attemptLoop outcome saveR rest (scanned ++ [d])
      ⟨o.scanned, (scanned ++ [d]) :: o.stateWrites, o.resultWrites,
        d :: o.attempted, o.found⟩

/-- `allDomains.filter(d => !scannedSet.has(d))` of `main`. -/
def unscannedOf (allDomains scanned0 : List String) : List String :=
  allDomains.filter (fun d => !(scanned0.contains d))

/-- Observable outcome of one `main` run. -/
structure RunResult where
  finalScanned : List String
  finalLastUpdate : Option String
  stateWrites : List (List String)
  resultWrites : List (List FormRecord)
  attempted : List String
  found : Bool
deriving DecidableEq, Repr

/-- `main` after `fetchDomains` and `loadScannedDomains`: compute the
unscanned domains; if none remain, reset the state (clear `scanned`,
refresh `lastUpdate`, persist) and stop without crawling; otherwise run the
domain loop over the first `min(|unscanned|, 10)` unscanned domains. -/
def mainRun (outcome : String → Except Unit (List FormRecord))
    (saveR : List FormRecord → Except Unit Unit) (now : String)
    (allDomains scanned0 : List String) : RunResult :=
  let unscanned := unscannedOf allDomains scanned0
  if unscanned.isEmpty then
    ⟨[], some now, [[]], [], [], false⟩
  else
    let maxAttempts := min unscanned.length MAX_DOMAIN_ATTEMPTS
    let o := attemptLoop outcome saveR (unscanned.take maxAttempts) scanned0
    ⟨o.scanned, some now, o.stateWrites, o.resultWrites, o.attempted, o.found⟩

/-! ### Lemmas about the domain loop -/

/-- A crawl attempt that yields no forms: zero extracted forms or a thrown
error (both continue the loop). -/
def crawlFails (outcome : String → Except Unit (List FormRecord))
    (d : String) : Prop :=
  outcome d = .ok [] ∨ outcome d = .error ()

lemma getD_take_eq (xs : List String) :
    ∀ (m i : Nat), i < m → (xs.take m).getD i "" = xs.getD i "" := by
  induction xs with
  | nil => intro m i _; simp
  | cons x xs ih =>
    intro m i him
    cases m with
    | zero => omega
    | succ m =>
      cases i with
      | zero => simp
      | succ i => simpa using ih m i (by omega)

/-- If the first `k` budgeted domains fail and the `(k+1)`st yields forms
(with result writes succeeding), the loop stops right after it. -/
lemma attemptLoop_first_success (outcome : String → Except Unit (List FormRecord))
    (saveR : List FormRecord → Except Unit Unit)
    (hsave : ∀ g, saveR g = .ok ()) :
    ∀ (l : List String) (k : Nat) (scanned : List String) (fsN : List FormRecord),
      k < l.length →
      (∀ i, i < k → crawlFails outcome (l.getD i "")) →
      outcome (l.getD k "") = .ok fsN → fsN ≠ [] →
      (attemptLoop outcome saveR l scanned).scanned = scanned ++ l.take (k + 1) ∧
      (attemptLoop outcome saveR l scanned).resultWrites = [fsN] ∧
      (attemptLoop outcome saveR l scanned).attempted = l.take (k + 1) ∧
      (attemptLoop outcome saveR l scanned).found = true := by
  intro l
  induction l with
  | nil => intro k _ _ hk; simp at hk
  | cons d rest ih =>
    intro k scanned fsN hk hfail hsucc hne
    cases k with
    | zero =>
      simp only [List.getD_cons_zero] at hsucc
      have hemp : fsN.isEmpty = false := by simpa [List.isEmpty_iff] using hne
      simp [attemptLoop, hsucc, hemp, hsave fsN]
    | succ j =>
      have h0 : crawlFails outcome d := by
        simpa using hfail 0 (Nat.succ_pos j)
      have hfail' : ∀ i, i < j → crawlFails outcome (rest.getD i "") := by
        intro i hi
        simpa using hfail (i + 1) (by omega)
      have hsucc' : outcome (rest.getD j "") = .ok fsN := by
        simpa using hsucc
      have hrec := ih j (scanned ++ [d]) fsN (by simpa using hk) hfail' hsucc' hne
      rcases h0 with h0 | h0
      · simp [attemptLoop, h0, hrec.1, hrec.2.1, hrec.2.2.1, hrec.2.2.2]
      · simp [attemptLoop, h0, hrec.1, hrec.2.1, hrec.2.2.1, hrec.2.2.2]

/-! ### Claim C1: first success wins -/

/-- C1: if among the unscanned domains the `N`th (1-based,
`N ≤ min(|unscanned|, 10)`) is the first whose crawl yields at least one
form — the earlier ones yield zero forms or throw — and result writes
succeed, then the run attempts exactly the first `N` unscanned domains in
collection order, appends all `N` of them to `scanned`, and persists only
the `N`th domain's forms. -/
theorem claim1_first_success_wins (outcome : String → Except Unit (List FormRecord))
    (saveR : List FormRecord → Except Unit Unit) (now : String)
    (allDomains scanned0 : List String) (N : Nat) (fsN : List FormRecord)
    (hsave : ∀ g, saveR g = .ok ())
    (hN1 : 1 ≤ N)
    (hN : N ≤ min (unscannedOf allDomains scanned0).length MAX_DOMAIN_ATTEMPTS)
    (hfail : ∀ i, i + 1 < N → crawlFails outcome ((unscannedOf allDomains scanned0).getD i ""))
    (hsucc : outcome ((unscannedOf allDomains scanned0).getD (N - 1) "") = .ok fsN)
    (hne : fsN ≠ []) :
    (mainRun outcome saveR now allDomains scanned0).attempted =
      (unscannedOf allDomains scanned0).take N ∧
    (mainRun outcome saveR now allDomains scanned0).attempted.length = N ∧
    (mainRun outcome saveR now allDomains scanned0).finalScanned =
      scanned0 ++ (unscannedOf allDomains scanned0).take N ∧
    (mainRun outcome saveR now allDomains scanned0).resultWrites = [fsN] ∧
    (mainRun outcome saveR now allDomains scanned0).found = true := by
  set u := unscannedOf allDomains scanned0 with hu
  have hlen : N ≤ u.length := le_trans hN (Nat.min_le_left _ _)
  have hne0 : u.isEmpty = false := by
    cases hc : u with
    | nil => rw [hc] at hlen; simp at hlen; omega
    | cons a l => rfl
  set m := min u.length MAX_DOMAIN_ATTEMPTS with hm
  have hNm : N ≤ m := hN
  have htl : (u.take m).length = m := by
    rw [List.length_take]
    exact Nat.min_eq_left (Nat.min_le_left _ _)
  have hk : N - 1 < (u.take m).length := by omega
  have hfail' : ∀ i, i < N - 1 → crawlFails outcome ((u.take m).getD i "") := by
    intro i hi
    rw [getD_take_eq u m i (by omega)]
    exact hfail i (by omega)
  have hsucc' : outcome ((u.take m).getD (N - 1) "") = .ok fsN := by
    rw [getD_take_eq u m (N - 1) (by omega)]
    exact hsucc
  have hloop := attemptLoop_first_success outcome saveR hsave (u.take m) (N - 1)
    scanned0 fsN hk hfail' hsucc' hne
  have htake : (u.take m).take (N - 1 + 1) = u.take N := by
    rw [List.take_take]
    congr 1
    omega
  rw [htake] at hloop
  have hmain : mainRun outcome saveR now allDomains scanned0 =
      ⟨(attemptLoop outcome saveR (u.take m) scanned0).scanned, some now,
        (attemptLoop outcome saveR (u.take m) scanned0).stateWrites,
        (attemptLoop outcome saveR (u.take m) scanned0).resultWrites,
        (attemptLoop outcome saveR (u.take m) scanned0).attempted,
        (attemptLoop outcome saveR (u.take m) scanned0).found⟩ := by
    simp only [mainRun, ← hu, hne0, Bool.false_eq_true, if_false, ← hm]
  rw [hmain]
  refine ⟨hloop.2.2.1, ?_, hloop.1, hloop.2.1, hloop.2.2.2⟩
  rw [hloop.2.2.1, List.length_take]
  omega

/-- C1, witness: two unscanned domains, the second is the first to yield a
form; the run attempts both, marks both scanned, persists only the second
domain's forms. -/
theorem claim1_first_success_wins_witness :
    (mainRun (fun d => if d = "b.com" then .ok [⟨"u", "a", "get", []⟩] else .ok [])
        (fun _ => .ok ()) "t" ["a.com", "b.com"] []).attempted = ["a.com", "b.com"] ∧
    (mainRun (fun d => if d = "b.com" then .ok [⟨"u", "a", "get", []⟩] else .ok [])
        (fun _ => .ok ()) "t" ["a.com", "b.com"] []).finalScanned = ["a.com", "b.com"] ∧
    (mainRun (fun d => if d = "b.com" then .ok [⟨"u", "a", "get", []⟩] else .ok [])
        (fun _ => .ok ()) "t" ["a.com", "b.com"] []).resultWrites =
      [[⟨"u", "a", "get", []⟩]] := by
  have h := claim1_first_success_wins
    (fun d => if d = "b.com" then .ok [⟨"u", "a", "get", []⟩] else .ok [])
    (fun _ => .ok ()) "t" ["a.com", "b.com"] [] 2 [⟨"u", "a", "get", []⟩]
    (fun _ => rfl) (by decide) (by decide)
    (by
      intro i hi
      have hi0 : i = 0 := by omega
      subst hi0
      exact Or.inl (by decide))
    (by decide) (by decide)
  exact ⟨h.1.trans (by decide), h.2.2.1.trans (by decide), h.2.2.2.1⟩

/-! ### Claim C5: full-reset transition -/

/-- C5: when every domain of the universe is already scanned, the run clears
`scanned`, refreshes `lastUpdate`, persists that state once, attempts no
domain and persists no forms. -/
theorem claim5_full_reset (outcome : String → Except Unit (List FormRecord))
    (saveR : List FormRecord → Except Unit Unit) (now : String)
    (allDomains scanned0 : List String)
    (h : unscannedOf allDomains scanned0 = []) :
    mainRun outcome saveR now allDomains scanned0 =
      ⟨[], some now, [[]], [], [], false⟩ := by
  simp [mainRun, h]

/-- C5, witness: a universe fully covered by the prior scanned set. -/
theorem claim5_full_reset_witness :
    mainRun (fun _ => .ok []) (fun _ => .ok ()) "t" ["a.com"] ["a.com"] =
      ⟨[], some "t", [[]], [], [], false⟩ :=
  claim5_full_reset (fun _ => .ok []) (fun _ => .ok ()) "t" ["a.com"] ["a.com"]
    (by decide)

/-! ### Claim C9: result-store write failure -/

/-- C9, counterexample to the claim as stated: `saveResults` is awaited
inside the per-domain `try`, so a persistent write failure is caught by the
same `catch` as a crawl failure.  Concretely: both domains yield a form but
every result write fails; the run still attempts both domains and completes
with `formsFound = false`, instead of the failure propagating and
terminating the run after the first domain. -/
theorem claim9_counterexample :
    (mainRun (fun _ => .ok [⟨"u", "a", "get", []⟩]) (fun _ => .error ()) "t"
        ["a.com", "b.com"] []).attempted = ["a.com", "b.com"] ∧
    (mainRun (fun _ => .ok [⟨"u", "a", "get", []⟩]) (fun _ => .error ()) "t"
        ["a.com", "b.com"] []).resultWrites = [] ∧
    (mainRun (fun _ => .ok [⟨"u", "a", "get", []⟩]) (fun _ => .error ()) "t"
        ["a.com", "b.com"] []).found = false := by
  refine ⟨?_, ?_, ?_⟩ <;> decide

/-- C9 (amended): a failure while persisting a domain's found forms is
caught by the per-domain handler, exactly like a crawl failure: the domain
is still appended to `scanned` and the state saved, nothing is persisted for
it, `formsFound` stays false, and the loop continues with the remaining
domains. -/
theorem claim9_write_failure_caught (outcome : String → Except Unit (List FormRecord))
    (saveR : List FormRecord → Except Unit Unit) (d : String)
    (rest scanned : List String) (fsN : List FormRecord)
    (hd : outcome d = .ok fsN) (hne : fsN ≠ [])
    (hsaveErr : saveR fsN = .error ()) :
    attemptLoop outcome saveR (d :: rest) scanned =
      ⟨(attemptLoop outcome saveR rest (scanned ++ [d])).scanned,
        (scanned ++ [d]) :: (attemptLoop outcome saveR rest (scanned ++ [d])).stateWrites,
        (attemptLoop outcome saveR rest (scanned ++ [d])).resultWrites,
        d :: (attemptLoop outcome saveR rest (scanned ++ [d])).attempted,
        (attemptLoop outcome saveR rest (scanned ++ [d])).found⟩ := by
  have hemp : fsN.isEmpty = false := by simpa [List.isEmpty_iff] using hne
  simp [attemptLoop, hd, hemp, hsaveErr]

/-- C9, witness: the amended theorem applied to one failing write followed
by an empty remainder. -/
theorem claim9_write_failure_caught_witness :
    attemptLoop (fun _ => .ok [⟨"u", "a", "get", []⟩]) (fun _ => .error ())
        ["a.com"] [] =
      ⟨(attemptLoop (fun _ => .ok [⟨"u", "a", "get", []⟩]) (fun _ => .error ())
          [] ["a.com"]).scanned,
        ["a.com"] :: (attemptLoop (fun _ => .ok [⟨"u", "a", "get", []⟩])
          (fun _ => .error ()) [] ["a.com"]).stateWrites,
        (attemptLoop (fun _ => .ok [⟨"u", "a", "get", []⟩]) (fun _ => .error ())
          [] ["a.com"]).resultWrites,
        "a.com" :: (attemptLoop (fun _ => .ok [⟨"u", "a", "get", []⟩])
          (fun _ => .error ()) [] ["a.com"]).attempted,
        (attemptLoop (fun _ => .ok [⟨"u", "a", "get", []⟩]) (fun _ => .error ())
          [] ["a.com"]).found⟩ :=
  claim9_write_failure_caught (fun _ => .ok [⟨"u", "a", "get", []⟩])
    (fun _ => .error ()) "a.com" [] [] [⟨"u", "a", "get", []⟩] rfl (by decide) rfl

/-! ## Frontier crawler (`crawlDomain`)

The BFS loop of `crawlDomain` is embedded over a `site` oracle:
`site u = none` models `page.goto(u)` (or the in-page evaluation) throwing —
caught per page, contributing nothing — and `site u = some (forms, links)`
models a successful visit returning the extracted forms and the qualifying
same-site links in document order (the hostname filter runs inside
`page.evaluate` and is part of the oracle).  The loop state mirrors
`visited` (as an insertion-ordered list; URLs are only added when absent, so
its length is the JS `Set`'s size), `toVisit` and `forms`.  `crawlLoop`
additionally returns the trace of loop-entry states, so invariants can be
stated about every intermediate state. -/

/-- State of one domain traversal: `visited`, `toVisit`, accumulated forms. -/
structure CrawlState where
  visited : List String
  queue : List String
  forms : List FormRecord
deriving Repr

/-- The link-enqueue loop of a visited page:
`if (!visited.has(link) && toVisit.length < 100) toVisit.push(link)`. -/
def enqueueLinks (visited links queue : List String) : List String :=
  links.foldl (fun q link => if link ∉ visited ∧ q.length < 100 then q ++ [link] else q)
    queue

/-- One successful dequeue of an unvisited URL `u` (queue remainder `rest`):
mark visited, then either the navigation fails (caught, nothing added) or
forms are collected and the first 10 qualifying links are enqueued under the
100-entry cap. -/
def visitStep (site : String → Option (List FormRecord × List String))
    (u : String) (rest : List String) (s : CrawlState) : CrawlState :=
  match site u with
  | none => ⟨s.visited ++ [u], rest, s.forms⟩
  | some (pf, links) =>
    ⟨s.visited ++ [u], enqueueLinks (s.visited ++ [u]) (links.take 10) rest,
      s.forms ++ pf⟩

lemma visitStep_visited (site : String → Option (List FormRecord × List String))
    (u : String) (rest : List String) (s : CrawlState) :
    (visitStep site u rest s).visited = s.visited ++ [u] := by
  unfold visitStep
  cases site u with
  | none => rfl
  | some p => cases p; rfl

lemma enqueueLinks_length_le (visited links queue : List String) :
    (enqueueLinks visited links queue).length ≤ queue.length + links.length := by
  induction links generalizing queue with
  | nil => simp [enqueueLinks]
  | cons l ls ih =>
    unfold enqueueLinks at ih ⊢
    simp only [List.foldl_cons]
    refine le_trans (ih _) ?_
    split
    all_goals simp only [List.length_append, List.length_cons, List.length_nil]
    all_goals omega

lemma enqueueLinks_le_100 (visited links queue : List String)
    (h : queue.length ≤ 100) :
    (enqueueLinks visited links queue).length ≤ 100 := by
  induction links generalizing queue with
  | nil => simpa [enqueueLinks]
  | cons l ls ih =>
    unfold enqueueLinks at ih ⊢
    simp only [List.foldl_cons]
    refine ih _ ?_
    split
    · rename_i hc
      simp
      omega
    · exact h

lemma visitStep_queue_le (site : String → Option (List FormRecord × List String))
    (u : String) (rest : List String) (s : CrawlState) :
    (visitStep site u rest s).queue.length ≤ rest.length + 10 := by
  unfold visitStep
  cases site u with
  | none => simp
  | some p =>
    cases p with
    | mk pf links =>
      simp only
      refine le_trans (enqueueLinks_length_le _ _ _) ?_
      have : (links.take 10).length ≤ 10 := by
        rw [List.length_take]
        omega
      omega

lemma visitStep_queue_le_100 (site : String → Option (List FormRecord × List String))
    (u : String) (rest : List String) (s : CrawlState) (h : rest.length ≤ 100) :
    (visitStep site u rest s).queue.length ≤ 100 := by
  unfold visitStep
  cases site u with
  | none => simpa
  | some p =>
    cases p with
    | mk pf links => exact enqueueLinks_le_100 _ _ _ h

lemma visitStep_mu_lt (site : String → Option (List FormRecord × List String))
    (u : String) (rest : List String) (s : CrawlState)
    (h : s.queue = u :: rest) (h50 : s.visited.length < 50) :
    (50 - (visitStep site u rest s).visited.length) * 101 +
        (visitStep site u rest s).queue.length <
      (50 - s.visited.length) * 101 + s.queue.length := by
  have h1 : (visitStep site u rest s).visited.length = s.visited.length + 1 := by
    rw [visitStep_visited]
    simp
  have h2 := visitStep_queue_le site u rest s
  rw [h]
  simp only [List.length_cons]
  omega

/-- The `while (toVisit.length > 0 && visited.size < 50)` loop of
`crawlDomain`.  Returns the final state and the trace of states at each loop
entry (the final state is the last trace entry). -/
def crawlLoop (site : String → Option (List FormRecord × List String))
    (s : CrawlState) : CrawlState × List CrawlState :=
  match h : s.queue with
  | [] => (s, [s])
  | u :: rest =>
    if h50 : 50 ≤ s.visited.length then (s, [s])
    else if hv : u ∈ s.visited then
      let r := crawlLoop site ⟨s.visited, rest, s.forms⟩
      (r.1, s :: r.2)
    else
      let r := crawlLoop site (visitStep site u rest s)
      (r.1, s :: r.2)
termination_by (50 - s.visited.length) * 101 + s.queue.length
decreasing_by
  · rw [h]
    simp only [List.length_cons]
    omega
  · exact visitStep_mu_lt site u rest s h (by omega)

/-! ### Unfolding equations of `crawlLoop` -/

lemma crawlLoop_nil (site : String → Option (List FormRecord × List String))
    (s : CrawlState) (h : s.queue = []) : crawlLoop site s = (s, [s]) := by
  rw [crawlLoop.eq_def]
  split
  · rfl
  · rename_i u rest heq
    rw [h] at heq
    cases heq

lemma crawlLoop_cap (site : String → Option (List FormRecord × List String))
    (s : CrawlState) (u : String) (rest : List String)
    (h : s.queue = u :: rest) (h50 : 50 ≤ s.visited.length) :
    crawlLoop site s = (s, [s]) := by
  rw [crawlLoop.eq_def]
  split
  · rfl
  · rename_i u2 rest2 heq
    rw [dif_pos h50]

lemma crawlLoop_skip (site : String → Option (List FormRecord × List String))
    (s : CrawlState) (u : String) (rest : List String)
    (h : s.queue = u :: rest) (h50 : s.visited.length < 50) (hv : u ∈ s.visited) :
    crawlLoop site s =
      ((crawlLoop site ⟨s.visited, rest, s.forms⟩).1,
        s :: (crawlLoop site ⟨s.visited, rest, s.forms⟩).2) := by
  rw [crawlLoop.eq_def]
  split
  · rename_i heq
    rw [heq] at h
    cases h
  · rename_i u2 rest2 heq
    rw [h] at heq
    cases heq
    rw [dif_neg (by omega), dif_pos hv]

lemma crawlLoop_visit (site : String → Option (List FormRecord × List String))
    (s : CrawlState) (u : String) (rest : List String)
    (h : s.queue = u :: rest) (h50 : s.visited.length < 50) (hv : u ∉ s.visited) :
    crawlLoop site s =
      ((crawlLoop site (visitStep site u rest s)).1,
        s :: (crawlLoop site (visitStep site u rest s)).2) := by
  rw [crawlLoop.eq_def]
  split
  · rename_i heq
    rw [heq] at h
    cases h
  · rename_i u2 rest2 heq
    rw [h] at heq
    cases heq
    rw [dif_neg (by omega), dif_neg hv]

/-- Every trace starts with the entry state itself. -/
lemma self_mem_crawlLoop_trace (site : String → Option (List FormRecord × List String))
    (s : CrawlState) : s ∈ (crawlLoop site s).2 := by
  cases hq : s.queue with
  | nil => rw [crawlLoop_nil site s hq]; exact List.mem_singleton.mpr rfl
  | cons u rest =>
    by_cases h50 : 50 ≤ s.visited.length
    · rw [crawlLoop_cap site s u rest hq h50]; exact List.mem_singleton.mpr rfl
    · by_cases hv : u ∈ s.visited
      · rw [crawlLoop_skip site s u rest hq (by omega) hv]
        exact List.mem_cons_self s _
      · rw [crawlLoop_visit site s u rest hq (by omega) hv]
        exact List.mem_cons_self s _

/-- Invariant: along the whole trace the visited set stays within 50 and the
queue within 100 (fuel induction on the loop measure). -/
lemma crawlLoop_bounds (site : String → Option (List FormRecord × List String)) :
    ∀ (n : Nat) (s : CrawlState),
      (50 - s.visited.length) * 101 + s.queue.length ≤ n →
      s.visited.length ≤ 50 → s.queue.length ≤ 100 →
      ∀ t ∈ (crawlLoop site s).2, t.visited.length ≤ 50 ∧ t.queue.length ≤ 100 := by
  intro n
  induction n with
  | zero =>
    intro s hmu h1 h2 t ht
    have hq : s.queue = [] := List.length_eq_zero.mp (by omega)
    rw [crawlLoop_nil site s hq] at ht
    rw [List.mem_singleton.mp ht]
    exact ⟨h1, h2⟩
  | succ n ih =>
    intro s hmu h1 h2 t ht
    cases hq : s.queue with
    | nil =>
      rw [crawlLoop_nil site s hq] at ht
      rw [List.mem_singleton.mp ht]
      exact ⟨h1, h2⟩
    | cons u rest =>
      have hql : s.queue.length = rest.length + 1 := by rw [hq]; rfl
      by_cases h50 : 50 ≤ s.visited.length
      · rw [crawlLoop_cap site s u rest hq h50] at ht
        rw [List.mem_singleton.mp ht]
        exact ⟨h1, h2⟩
      · by_cases hv : u ∈ s.visited
        · rw [crawlLoop_skip site s u rest hq (by omega) hv] at ht
          rcases List.mem_cons.mp ht with rfl | ht2
          · exact ⟨h1, h2⟩
          · exact ih ⟨s.visited, rest, s.forms⟩ (by simp; omega) h1
              (by simp; omega) t ht2
        · rw [crawlLoop_visit site s u rest hq (by omega) hv] at ht
          rcases List.mem_cons.mp ht with rfl | ht2
          · exact ⟨h1, h2⟩
          · have hmu2 := visitStep_mu_lt site u rest s hq (by omega)
            have hv1 : (visitStep site u rest s).visited.length =
                s.visited.length + 1 := by
              rw [visitStep_visited]; simp
            exact ih (visitStep site u rest s) (by omega) (by omega)
              (visitStep_queue_le_100 site u rest s (by omega)) t ht2

/-- The seed loop of `crawlDomain`: the three candidate root URLs, each
pushed after the (vacuous) check against the then-empty visited set. -/
def seedQueue (domain : String) : List String :=
  ["https://" ++ domain, "https://www." ++ domain, "http://" ++ domain].foldl
    (fun q url => if url ∈ ([] : List String) then q else q ++ [url]) []

lemma seedQueue_eq (domain : String) :
    seedQueue domain =
      ["https://" ++ domain, "https://www." ++ domain, "http://" ++ domain] := by
  simp [seedQueue]

/-- The crawl state at the top of the visit loop. -/
def initState (domain : String) : CrawlState :=
  ⟨[], seedQueue domain, []⟩

/-- The trace of loop-entry states of one domain crawl. -/
def crawlTrace (site : String → Option (List FormRecord × List String))
    (domain : String) : List CrawlState :=
  (crawlLoop site (initState domain)).2

/-- Renderer lifecycle events observable from `crawlDomain`. -/
inductive REv where
  | launch
  | close
deriving DecidableEq, Repr

/-- The renderer as `crawlDomain` uses it: whether `browser.newContext` and
`context.newPage` succeed, and the per-page behavior. -/
structure Renderer where
  contextOk : Bool
  pageOk : Bool
  site : String → Option (List FormRecord × List String)

/-- `crawlDomain`: launch the browser, create context and page, run the
visit loop, close the browser, return the forms.  `browser.close()` is only
reached after the loop: an exception thrown by `newContext` or `newPage`
propagates out with no close event (the source has no `finally`). -/
def crawlDomain (r : Renderer) (domain : String) :
    Except Unit (List FormRecord) × List REv :=
  if r.contextOk = false then (.error (), [.launch])
  else if r.pageOk = false then (.error (), [.launch])
  else (.ok (crawlLoop r.site (initState domain)).1.forms, [.launch, .close])

/-! ### Claim C6: frontier caps -/

/-- C6: throughout a single-domain crawl (1) every state on the trace has at
most 50 visited URLs and at most 100 pending queue entries; (2) a dequeued
URL already in the visited set is skipped: the loop recurses on the shorter
queue with `visited` and `forms` unchanged, so the skip does not count
toward the visit cap; (3) a visited page enqueues from at most the first 10
of its qualifying links, growing the queue by at most 10. -/
theorem claim6_frontier_caps
    (site : String → Option (List FormRecord × List String)) (domain : String) :
    (∀ t ∈ crawlTrace site domain, t.visited.length ≤ 50 ∧ t.queue.length ≤ 100) ∧
    (∀ (s : CrawlState) (u : String) (rest : List String),
      s.queue = u :: rest → s.visited.length < 50 → u ∈ s.visited →
      crawlLoop site s =
        ((crawlLoop site ⟨s.visited, rest, s.forms⟩).1,
          s :: (crawlLoop site ⟨s.visited, rest, s.forms⟩).2)) ∧
    (∀ (u : String) (rest : List String) (s : CrawlState),
      (visitStep site u rest s).queue.length ≤ rest.length + 10) ∧
    (∀ (visited links queue : List String),
      (enqueueLinks visited (links.take 10) queue).length ≤ queue.length + 10) := by
  refine ⟨?_, crawlLoop_skip site, visitStep_queue_le site, ?_⟩
  · have hq3 : (seedQueue domain).length = 3 := by rw [seedQueue_eq]; rfl
    exact crawlLoop_bounds site ((50 - 0) * 101 + 3) (initState domain)
      (by simp [initState, hq3]) (by simp [initState]) (by simp [initState, hq3])
  · intro visited links queue
    refine le_trans (enqueueLinks_length_le _ _ _) ?_
    have : (links.take 10).length ≤ 10 := by
      rw [List.length_take]
      omega
    omega

/-- C6, witness: the caps theorem applied to a site where every navigation
fails, at the initial state (always on the trace). -/
theorem claim6_frontier_caps_witness :
    (initState "example.com").visited.length ≤ 50 ∧
    (initState "example.com").queue.length ≤ 100 :=
  (claim6_frontier_caps (fun _ => none) "example.com").1 (initState "example.com")
    (self_mem_crawlLoop_trace (fun _ => none) (initState "example.com"))

/-! ### Claim C7: renderer release -/

/-- C7: the claim fails on the code.  `crawlDomain` has no `try/finally`
around the browser: when `browser.newContext` throws (and likewise
`context.newPage`), the invocation exits by that exception and
`browser.close()` at the end of the function is never reached, so the
renderer resource is not released on that exit path.  The run's own
per-domain `catch` swallows the error, and the leaked browser survives the
domain loop. -/
theorem claim7_close_skipped_on_context_failure :
    crawlDomain ⟨false, true, fun _ => none⟩ "example.com" =
      (.error (), [.launch]) ∧
    REv.close ∉ (crawlDomain ⟨false, true, fun _ => none⟩ "example.com").2 := by
  constructor
  · rfl
  · decide

end Crawler

